import Mathlib

/-!
# Shallow embedding of the arcanine storage layer

This file embeds the storage/indexing layer of the repository
(`src-tauri/src/models/*.rs`, `src-tauri/src/storage/*.rs`) in Lean 4 and
proves properties of the embedded definitions.

Modelling conventions:
* Rust `String` is Lean `String`; Rust `usize` is `Nat`.
* `HashMap` values are modelled as association lists whose insert removes
  the previous binding of the key, so key sets stay duplicate-free and
  `lookup`/`len` agree with the Rust map.
* The filesystem is a flat association list from (string) paths to YAML
  documents; YAML documents are modelled at the document-tree level
  (`Yaml` below), i.e. serde serialization is embedded value-to-tree and
  the text layer of `serde_yaml` is treated as faithful.
* A poisoned `RwLock` is modelled by a boolean flag per lock; acquiring a
  poisoned lock yields the error branch, exactly as `RwLock::read/write`
  return `Err` after a panic in a holder.  An uncontrolled panic
  (`.unwrap()` on a poisoned lock) is modelled as `Option.none`.
* `chrono::Utc::now().to_rfc3339()` is an input parameter (`now`).
-/

set_option autoImplicit false

/-- `true` exactly when Rust `s.trim().is_empty()` is `true`:
every character of the string is whitespace. -/
def isBlank (s : String) : Bool :=
  s.data.all Char.isWhitespace

/-- Rust `str::starts_with`, at the character level. -/
def strStartsWith (s pre : String) : Bool :=
  pre.data.isPrefixOf s.data

/-- Dropping the first `n` characters of a string (used to model
`str::strip_prefix` once the prefix is known to be present). -/
def strDrop (s : String) (n : Nat) : String :=
  String.mk (s.data.drop n)

/-! ## Data model (`models/request.rs`, `models/collection.rs`, `models/error.rs`) -/

/-- `HttpMethod` from `models/request.rs`. -/
inductive HttpMethod where
  | get
  | post
  | put
  | patch
  | delete
  | head
  | options
  deriving DecidableEq, Repr

/-- The `UPPERCASE` serde rename of a method, as serialized to YAML. -/
def HttpMethod.serdeName : HttpMethod → String
  | .get => "GET"
  | .post => "POST"
  | .put => "PUT"
  | .patch => "PATCH"
  | .delete => "DELETE"
  | .head => "HEAD"
  | .options => "OPTIONS"

/-- `Request` from `models/request.rs`.  `headers` is a `HashMap` in Rust;
it is kept as an association list here. -/
structure Request where
  method : HttpMethod
  url : String
  headers : List (String × String)
  body : Option String
  name : String
  deriving DecidableEq, Repr

/-- `ModelError` from `models/error.rs`. -/
inductive ModelError where
  | invalidUrl (msg : String)
  | invalidMethod (msg : String)
  | invalidStatusCode (code : Nat)
  | emptyField (field : String)
  | validationError (msg : String)
  deriving DecidableEq, Repr

/-- The `Display` implementation of `ModelError`. -/
def ModelError.display : ModelError → String
  | .invalidUrl url => "Invalid URL: " ++ url
  | .invalidMethod m => "Invalid HTTP method: " ++ m
  | .invalidStatusCode c => "Invalid status code: " ++ toString c ++ " (must be 100-599)"
  | .emptyField f => "Required field is empty: " ++ f
  | .validationError m => "Validation error: " ++ m

/-- The `self.url.strip_prefix("http://").or_else(.. "https://").unwrap_or(&self.url)`
expression of `Request::validate`. -/
def urlWithoutScheme (url : String) : String :=
  if strStartsWith url "http://" then strDrop url 7
  else if strStartsWith url "https://" then strDrop url 8
  else url

/-- `Request::validate` from `models/request.rs`. -/
def Request.validate (r : Request) : Except ModelError Unit :=
  if isBlank r.name then
    .error (.emptyField "name")
  else if isBlank r.url then
    .error (.emptyField "url")
  else if !(strStartsWith r.url "http://" || strStartsWith r.url "https://") then
    .error (.invalidUrl ("URL must start with http:// or https://: " ++ r.url))
  else
    let rest := urlWithoutScheme r.url
    if rest = "" ∨ rest = "/" then
      .error (.invalidUrl ("URL must contain a domain: " ++ r.url))
    else
      .ok ()

/-- `CollectionMetadata` from `models/collection.rs`. -/
structure CollectionMetadata where
  version : Option String
  author : Option String
  created_at : Option String
  updated_at : Option String
  deriving DecidableEq, Repr

/-- `Default for CollectionMetadata` (note: `version = Some "1.0.0")`. -/
def CollectionMetadata.defaultValue : CollectionMetadata :=
  ⟨some "1.0.0", none, none, none⟩

/-- `Collection` from `models/collection.rs`. -/
structure Collection where
  name : String
  requests : List Request
  description : Option String
  metadata : CollectionMetadata
  deriving DecidableEq, Repr

namespace CollectionManager

/-! ## `validate_and_fix_collection` (`storage/collection_manager.rs`) -/

/-- `CollectionManager::validate_metadata`: flags a missing `version`,
backfilling it with `"1.0.0"` when fixing. -/
def validateMetadata (c : Collection) (issues : List String) (fix_issues : Bool) :
    Collection × List String :=
  if c.metadata.version = none then
    let issues := issues ++ ["Missing version metadata"]
    if fix_issues then
      ({ c with metadata := { c.metadata with version := some "1.0.0" } }, issues)
    else (c, issues)
  else (c, issues)

/-- The loop body of `CollectionManager::validate_duplicate_names`:
walks the requests with their absolute index, keeping a first-seen map
`seen`; a repeated name yields an issue and (when fixing) a rename to
`"<name> (<idx>)"` with `idx` the absolute position.  Only first
occurrences are inserted into `seen`. -/
def fixDuplicatesGo (fix_issues : Bool) :
    List Request → Nat → List (String × Nat) → List Request × List String
  | [], _, _ => ([], [])
  | r :: rs, idx, seen =>
    match seen.find? (fun p => p.1 == r.name) with
    | some p =>
      let issue := "Duplicate request name '" ++ r.name ++ "' at indices "
        ++ toString p.2 ++ " and " ++ toString idx
      let renamed := if fix_issues then { r with name := r.name ++ " (" ++ toString idx ++ ")" } else r
      let rest := fixDuplicatesGo fix_issues rs (idx + 1) seen
      (renamed :: rest.1, issue :: rest.2)
    | none =>
      let rest := fixDuplicatesGo fix_issues rs (idx + 1) (seen ++ [(r.name, idx)])
      (r :: rest.1, rest.2)

/-- `CollectionManager::validate_duplicate_names`.  Faithful detail: the
rewrite of `collection.requests` is guarded by `fix_issues &&
!issues.is_empty()` where `issues` is the whole accumulated issue vector
(including metadata issues appended earlier). -/
def validateDuplicateNames (c : Collection) (issues : List String) (fix_issues : Bool) :
    Collection × List String :=
  let scanned := fixDuplicatesGo fix_issues c.requests 0 []
  let issues2 := issues ++ scanned.2
  if fix_issues && !issues2.isEmpty then
    ({ c with requests := scanned.1 }, issues2)
  else (c, issues2)

/-- The filter of `CollectionManager::validate_requests`: every invalid
request is flagged, and kept exactly when `fix_issues` is false. -/
def validateRequestsGo (fix_issues : Bool) : List Request → List Request × List String
  | [] => ([], [])
  | r :: rs =>
    let rest := validateRequestsGo fix_issues rs
    match r.validate with
    | .error e =>
      ((if fix_issues then rest.1 else r :: rest.1),
       ("Invalid request '" ++ r.name ++ "': " ++ e.display) :: rest.2)
    | .ok _ => (r :: rest.1, rest.2)

/-- `CollectionManager::validate_requests`. -/
def validateRequests (c : Collection) (issues : List String) (fix_issues : Bool) :
    Collection × List String :=
  let filtered := validateRequestsGo fix_issues c.requests
  ((if fix_issues then { c with requests := filtered.1 } else c), issues ++ filtered.2)

/-- `CollectionManager::validate_and_fix_collection`: metadata check, then
duplicate-name check, then per-request validity check, in that order. -/
def validateAndFixCollection (c : Collection) (fix_issues : Bool) :
    Collection × List String :=
  let s1 := validateMetadata c [] fix_issues
  let s2 := validateDuplicateNames s1.1 s1.2 fix_issues
  validateRequests s2.1 s2.2 fix_issues

end CollectionManager

/-! ## Association-list model of `HashMap` -/

/-- `HashMap::get`: the value bound to `k`, if any. -/
def mapLookup {β : Type} (m : List (String × β)) (k : String) : Option β :=
  match m.find? (fun p => p.1 == k) with
  | some p => some p.2
  | none => none

/-- `HashMap::insert`: binds `k` to `v`, discarding any previous binding. -/
def mapInsert {β : Type} (m : List (String × β)) (k : String) (v : β) :
    List (String × β) :=
  (k, v) :: m.filter (fun p => !(p.1 == k))

/-- `HashMap::remove`: discards the binding of `k`, if any. -/
def mapRemove {β : Type} (m : List (String × β)) (k : String) : List (String × β) :=
  m.filter (fun p => !(p.1 == k))

/-! ## YAML documents and the serde encoding of the two document kinds

The serde derives on `Request`, `Collection` and `CollectionMetadata` are
embedded as value-to-document-tree functions: `#[serde(default)]` supplies
the field default when the key is absent, `#[serde(skip_serializing_if =
"Option::is_none")]` omits the key for `None`, and `Option` fields decode
to `None` when absent. -/

/-- A YAML document tree (the fragment these schemas use). -/
inductive Yaml where
  | str (s : String)
  | seq (xs : List Yaml)
  | dict (kvs : List (String × Yaml))
  | null
  deriving Repr

/-- Key lookup in a YAML mapping node. -/
def yamlGet (kvs : List (String × Yaml)) (k : String) : Option Yaml :=
  match kvs.find? (fun p => p.1 == k) with
  | some p => some p.2
  | none => none

/-- Expect a YAML scalar string. -/
def yamlAsStr : Yaml → Option String
  | .str s => some s
  | _ => none

/-- Effectful map over a list in the `Option` monad (serde `Vec`/map
deserialization: the first element failure fails the whole list). -/
def optionMapList {α β : Type} (f : α → Option β) : List α → Option (List β)
  | [] => some []
  | a :: tl => do
    let b ← f a
    let rest ← optionMapList f tl
    pure (b :: rest)

/-- Serialization of `Request` (fields in declaration order; `body`
omitted when `None`). -/
def encodeRequest (r : Request) : Yaml :=
  .dict ([("method", .str r.method.serdeName),
          ("url", .str r.url),
          ("headers", .dict (r.headers.map (fun p => (p.1, .str p.2))))]
    ++ (match r.body with
        | some b => [("body", Yaml.str b)]
        | none => [])
    ++ [("name", .str r.name)])

/-- Deserialization of the `method` field (serde `UPPERCASE` rename). -/
def decodeMethod (s : String) : Option HttpMethod :=
  if s = "GET" then some .get
  else if s = "POST" then some .post
  else if s = "PUT" then some .put
  else if s = "PATCH" then some .patch
  else if s = "DELETE" then some .delete
  else if s = "HEAD" then some .head
  else if s = "OPTIONS" then some .options
  else none

/-- Deserialization of a `headers` map: every value must be a string. -/
def decodeHeaders (y : Yaml) : Option (List (String × String)) :=
  match y with
  | .dict kvs => optionMapList (fun p => (yamlAsStr p.2).map (fun s => (p.1, s))) kvs
  | _ => none

/-- Deserialization of `Request` (serde derive: `method`, `url`, `name`
required; `headers` defaults to the empty map; `body` is `Option`). -/
def decodeRequest (y : Yaml) : Option Request :=
  match y with
  | .dict kvs => do
    let m ← yamlGet kvs "method" >>= yamlAsStr
    let method ← decodeMethod m
    let url ← yamlGet kvs "url" >>= yamlAsStr
    let headers ← match yamlGet kvs "headers" with
      | none => some []
      | some h => decodeHeaders h
    let body ← match yamlGet kvs "body" with
      | none => some none
      | some .null => some none
      | some (.str b) => some (some b)
      | some _ => none
    let name ← yamlGet kvs "name" >>= yamlAsStr
    pure ⟨method, url, headers, body, name⟩
  | _ => none

/-- Serialization of `CollectionMetadata` (every `Option` field is
skipped when `None`). -/
def encodeMetadata (m : CollectionMetadata) : Yaml :=
  .dict ((match m.version with | some v => [("version", Yaml.str v)] | none => [])
    ++ (match m.author with | some a => [("author", Yaml.str a)] | none => [])
    ++ (match m.created_at with | some t => [("created_at", Yaml.str t)] | none => [])
    ++ (match m.updated_at with | some t => [("updated_at", Yaml.str t)] | none => []))

/-- Deserialization of one optional string field. -/
def decodeOptStr (kvs : List (String × Yaml)) (k : String) : Option (Option String) :=
  match yamlGet kvs k with
  | none => some none
  | some .null => some none
  | some (.str s) => some (some s)
  | some _ => none

/-- Deserialization of `CollectionMetadata`. -/
def decodeMetadata (y : Yaml) : Option CollectionMetadata :=
  match y with
  | .dict kvs => do
    let version ← decodeOptStr kvs "version"
    let author ← decodeOptStr kvs "author"
    let created_at ← decodeOptStr kvs "created_at"
    let updated_at ← decodeOptStr kvs "updated_at"
    pure ⟨version, author, created_at, updated_at⟩
  | _ => none

/-- Serialization of `Collection` (`description` skipped when `None`;
`requests` and `metadata` always present). -/
def encodeCollection (c : Collection) : Yaml :=
  .dict ([("name", .str c.name),
          ("requests", .seq (c.requests.map encodeRequest))]
    ++ (match c.description with
        | some d => [("description", Yaml.str d)]
        | none => [])
    ++ [("metadata", encodeMetadata c.metadata)])

/-- Deserialization of `Collection` (serde derive: `name` required;
`requests` defaults to `[]`; `description` is `Option`; `metadata`
defaults to `CollectionMetadata::default()`, whose `version` is
`Some "1.0.0")`. -/
def decodeCollection (y : Yaml) : Option Collection :=
  match y with
  | .dict kvs => do
    let name ← yamlGet kvs "name" >>= yamlAsStr
    let requests ← match yamlGet kvs "requests" with
      | none => some []
      | some (.seq xs) => optionMapList decodeRequest xs
      | some _ => none
    let description ← decodeOptStr kvs "description"
    let metadata ← match yamlGet kvs "metadata" with
      | none => some CollectionMetadata.defaultValue
      | some m => decodeMetadata m
    pure ⟨name, requests, description, metadata⟩
  | _ => none

/-! ## `YAMLStore` (`storage/yaml_store.rs`) -/

/-- `YAMLStoreError` from `storage/yaml_store.rs` (the I/O payloads are
kept abstract as message strings). -/
inductive YAMLStoreError where
  | readError (msg : String)
  | serializeError (msg : String)
  | fileNotFound (path : String)
  | invalidPath
  | validationError (msg : String)
  deriving DecidableEq, Repr

/-- The filesystem as seen by the store: path contents, document-tree level. -/
def FileSystem : Type := List (String × Yaml)

/-- `Path::is_absolute` on the string paths of this model. -/
def pathIsAbsolute (p : String) : Bool :=
  strStartsWith p "/"

namespace YAMLStore

/-- `YAMLStore::resolve_path`: absolute paths are used as-is, relative
paths are joined to the base path. -/
def resolvePath (base_path : String) (p : String) : String :=
  if pathIsAbsolute p then p else base_path ++ "/" ++ p

/-- `YAMLStore::save_collection`: serializes to
`<base_path>/<filename>.collection.yaml` (the atomic temp-file/rename
dance collapses to a map update at this abstraction) and returns the
resulting filesystem plus the written path. -/
def saveCollection (fs : FileSystem) (base_path : String) (c : Collection)
    (filename : String) : FileSystem × String :=
  let file_path := base_path ++ "/" ++ filename ++ ".collection.yaml"
  (mapInsert fs file_path (encodeCollection c), file_path)

/-- `YAMLStore::load_collection`: resolve, check existence, deserialize.
No structural validation happens on collection load. -/
def loadCollection (fs : FileSystem) (base_path : String) (p : String) :
    Except YAMLStoreError Collection :=
  let full_path := resolvePath base_path p
  match mapLookup fs full_path with
  | none => .error (.fileNotFound full_path)
  | some y =>
    match decodeCollection y with
    | none => .error (.serializeError "invalid collection document")
    | some c => .ok c

/-- `YAMLStore::delete_file`: resolve, `FileNotFound` when absent, else
remove. -/
def deleteFile (fs : FileSystem) (base_path : String) (p : String) :
    FileSystem × Except YAMLStoreError Unit :=
  let full_path := resolvePath base_path p
  match mapLookup fs full_path with
  | none => (fs, .error (.fileNotFound full_path))
  | some _ => (mapRemove fs full_path, .ok ())

end YAMLStore

/-! ## Path helpers used by `migrate_collection` -/

/-- `Path::file_name` on the string paths of this model: the component
after the last `/` (the model keeps the whole string when there is no
separator, which matches relative single-component paths). -/
def pathFileName (p : String) : String :=
  String.mk ((p.data.reverse.takeWhile (fun c => !(c == '/'))).reverse)

/-- The characters before the final `.` of a file name. -/
def charsBeforeLastDot (cs : List Char) : List Char :=
  (((cs.reverse).dropWhile (fun c => !(c == '.'))).drop 1).reverse

/-- Rust `Path::file_stem` on the characters of a file name: `none` for an
empty name; the whole name when it has no `.`, or when it begins with `.`
and has no further `.`; otherwise the portion before the final `.`. -/
def rustFileStemChars (cs : List Char) : Option (List Char) :=
  match cs with
  | [] => none
  | c :: rest =>
    if '.' ∉ c :: rest then some (c :: rest)
    else if c = '.' ∧ '.' ∉ rest then some (c :: rest)
    else some (charsBeforeLastDot (c :: rest))

/-- Rust `Path::file_stem` on a file name. -/
def rustFileStem (name : String) : Option String :=
  (rustFileStemChars name.data).map String.mk

/-! ## `CollectionManager` state and operations
(`storage/collection_manager.rs`)

Each `RwLock` carries a poisoned flag; `lock.read()/write()` on a
poisoned lock yields its `Err` branch.  The manager code never matches on
that branch explicitly: it uses `.ok()?`, `if let Ok(..)`,
`.map(..).unwrap_or_default()` and `.map(..).unwrap_or(..)`, each embedded
below exactly where the source uses it. -/

structure ManagerState where
  /-- contents guarded by the `collection_index` lock -/
  collectionIndex : List (String × Collection)
  /-- contents guarded by the `request_index` lock -/
  requestIndex : List (String × (String × Nat))
  /-- the `collection_index` lock is poisoned -/
  collectionPoisoned : Bool
  /-- the `request_index` lock is poisoned -/
  requestPoisoned : Bool

namespace CollectionManager

/-- `CollectionManager::add_to_index`: two separate critical sections;
`if let Ok(..)` makes each a silent no-op when its lock is poisoned.
Requests are inserted in list order, so a later position overwrites an
earlier one for the same name. -/
def addToIndex (s : ManagerState) (path : String) (c : Collection) : ManagerState :=
  let s1 :=
    if s.collectionPoisoned then s
    else { s with collectionIndex := mapInsert s.collectionIndex path c }
  if s1.requestPoisoned then s1
  else { s1 with requestIndex :=
    (c.requests.enum).foldl (fun m p => mapInsert m p.2.name (path, p.1)) s1.requestIndex }

/-- `CollectionManager::load_collection`: store load, then index update. -/
def loadCollection (s : ManagerState) (fs : FileSystem) (base_path : String)
    (path : String) : ManagerState × Except YAMLStoreError Collection :=
  match YAMLStore.loadCollection fs base_path path with
  | .error e => (s, .error e)
  | .ok c => (addToIndex s path c, .ok c)

/-- `CollectionManager::save_collection`: store save, then index update at
the returned path. -/
def saveCollection (s : ManagerState) (fs : FileSystem) (base_path : String)
    (c : Collection) (filename : String) :
    ManagerState × FileSystem × String :=
  let saved := YAMLStore.saveCollection fs base_path c filename
  (addToIndex s saved.2 c, saved.1, saved.2)

/-- `CollectionManager::find_request_by_name`: `.ok()?` turns a poisoned
lock into `None`; both lookups and the positional fetch degrade to
`None`. -/
def findRequestByName (s : ManagerState) (name : String) : Option Request := do
  let _ ← if s.requestPoisoned then none else some ()
  let entry ← mapLookup s.requestIndex name
  let _ ← if s.collectionPoisoned then none else some ()
  let c ← mapLookup s.collectionIndex entry.1
  c.requests.get? entry.2

/-- `CollectionManager::get_all_collections`:
`.read().map(..).unwrap_or_default()` yields the empty vector when the
lock is poisoned. -/
def getAllCollections (s : ManagerState) : List Collection :=
  if s.collectionPoisoned then [] else s.collectionIndex.map (fun p => p.2)

/-- `CollectionManager::collection_count`:
`.read().map(..).unwrap_or(0)` yields `0` when the lock is poisoned. -/
def collectionCount (s : ManagerState) : Nat :=
  if s.collectionPoisoned then 0 else s.collectionIndex.length

/-- `CollectionManager::clear_index`: each `if let Ok(..)` clears its map
unless that lock is poisoned. -/
def clearIndex (s : ManagerState) : ManagerState :=
  let s1 := if s.collectionPoisoned then s else { s with collectionIndex := [] }
  if s1.requestPoisoned then s1 else { s1 with requestIndex := [] }

/-- `CollectionManager::delete_collection`: remove the index entry first
(silently skipped under a poisoned lock), then delete the file; a file
deletion error propagates via `?`. -/
def deleteCollection (s : ManagerState) (fs : FileSystem) (base_path : String)
    (path : String) : ManagerState × FileSystem × Except YAMLStoreError Unit :=
  let s1 :=
    if s.collectionPoisoned then s
    else { s with collectionIndex := mapRemove s.collectionIndex path }
  let deleted := YAMLStore.deleteFile fs base_path path
  (s1, deleted.1, deleted.2)

/-- The pure payload of `CollectionManager::migrate_collection` between
load and save: backfills `version` when absent and, when `created_at` is
absent, sets both timestamps to `now`. -/
def migrateFix (c : Collection) (now : String) : Collection :=
  let c1 :=
    if c.metadata.version = none then
      { c with metadata := { c.metadata with version := some "1.0.0" } }
    else c
  if c1.metadata.created_at = none then
    { c1 with metadata := { c1.metadata with
        created_at := some now, updated_at := some now } }
  else c1

/-- `CollectionManager::migrate_collection`: load, backfill, then re-save
with filename `path.file_stem().and_then(to_str).unwrap_or("migrated")`.
The index is not touched (the store is called directly).  `now` stands
for `chrono::Utc::now().to_rfc3339()`. -/
def migrateCollection (fs : FileSystem) (base_path : String) (path : String)
    (now : String) : Except YAMLStoreError (FileSystem × Collection) :=
  match YAMLStore.loadCollection fs base_path path with
  | .error e => .error e
  | .ok c =>
    let migrated := migrateFix c now
    let filename := (rustFileStem (pathFileName path)).getD "migrated"
    let saved := YAMLStore.saveCollection fs base_path migrated filename
    .ok (saved.1, migrated)

end CollectionManager

/-! ## `RequestStore` (`storage/request_store.rs`)

Every operation acquires the single lock with `.unwrap()`: on a poisoned
lock the operation panics.  The panic is modelled as `Option.none`
around the operation's result. -/

structure RequestStoreState where
  store : List (String × Request)
  poisoned : Bool

namespace RequestStore

/-- `RequestStore::len` (`.read().unwrap()`: panics when poisoned). -/
def len (s : RequestStoreState) : Option Nat :=
  if s.poisoned then none else some s.store.length

/-- `RequestStore::is_empty`. -/
def isEmptyStore (s : RequestStoreState) : Option Bool :=
  if s.poisoned then none else some s.store.isEmpty

/-- `RequestStore::add_request`: the blank-name check precedes the lock
acquisition; an existing name is rejected; otherwise the request is
inserted. -/
def addRequest (s : RequestStoreState) (name : String) (r : Request) :
    Option (RequestStoreState × Except String Unit) :=
  if isBlank name then
    some (s, .error "Request name cannot be empty")
  else if s.poisoned then none
  else if (mapLookup s.store name).isSome then
    some (s, .error ("Request with name '" ++ name ++ "' already exists"))
  else
    some ({ s with store := mapInsert s.store name r }, .ok ())

/-- `RequestStore::update_request`. -/
def updateRequest (s : RequestStoreState) (name : String) (r : Request) :
    Option (RequestStoreState × Except String Unit) :=
  if s.poisoned then none
  else if (mapLookup s.store name).isNone then
    some (s, .error ("Request with name '" ++ name ++ "' not found"))
  else
    some ({ s with store := mapInsert s.store name r }, .ok ())

/-- `RequestStore::delete_request`. -/
def deleteRequest (s : RequestStoreState) (name : String) :
    Option (RequestStoreState × Except String Unit) :=
  if s.poisoned then none
  else if (mapLookup s.store name).isNone then
    some (s, .error ("Request with name '" ++ name ++ "' not found"))
  else
    some ({ s with store := mapRemove s.store name }, .ok ())

/-- `RequestStore::get_request`. -/
def getRequest (s : RequestStoreState) (name : String) : Option (Option Request) :=
  if s.poisoned then none else some (mapLookup s.store name)

end RequestStore

/-! ## Spec-side definitions and concrete fixtures -/

/-- Modelled from the spec: the authority component of a URL — the
characters after the `http(s)://` scheme up to the first `/`.  §3 demands
it be non-empty; used to compare the spec's validity notion with
`Request::validate`. -/
def urlAuthority (url : String) : String :=
  String.mk ((urlWithoutScheme url).data.takeWhile (fun c => !(c == '/')))

/-- A GET request with no headers and no body (the shape
`Request::new(name, url)` builds). -/
def mkRequest (n u : String) : Request :=
  ⟨.get, u, [], none, n⟩

/-- A collection whose metadata carries `created_at` but lacks
`updated_at` (the case `migrate_collection` does not touch). -/
def partialTimestampCollection : Collection :=
  ⟨"Legacy", [], none, ⟨some "1.0.0", none, some "2020-01-01T00:00:00+00:00", none⟩⟩

/-- A collection that still needs migration (no version, no timestamps). -/
def unmigratedCollection : Collection :=
  ⟨"Legacy", [], none, ⟨none, none, none, none⟩⟩

/-- A collection exercising every serialized field. -/
def richCollection : Collection :=
  ⟨"Test API",
   [⟨.post, "https://api.example.com/users", [("Content-Type", "application/json")],
     some "x", "Create User"⟩,
    mkRequest "Get Users" "https://api.example.com/users"],
   some "A test collection",
   ⟨some "1.0.0", some "Jane", some "2020-01-01T00:00:00+00:00", none⟩⟩

/-- The spec's Scenario A collection: two valid requests named
`"Get User"` with different URLs and default metadata. -/
def scenarioACollection : Collection :=
  ⟨"Test", [mkRequest "Get User" "https://a.example.com",
            mkRequest "Get User" "https://b.example.com"], none,
   ⟨some "1.0.0", none, none, none⟩⟩

/-- Scenario A, but with `metadata.version` absent. -/
def missingVersionDupCollection : Collection :=
  ⟨"Test", [mkRequest "Get User" "https://a.example.com",
            mkRequest "Get User" "https://b.example.com"], none,
   ⟨none, none, none, none⟩⟩

/-- A collection holding two requests with the same name (allowed by
construction; uniqueness is only a validated property). -/
def duplicateNameCollection : Collection :=
  ⟨"API", [mkRequest "Common Request" "https://api1.example.com",
           mkRequest "Common Request" "https://api2.example.com"],
   none, CollectionMetadata.defaultValue⟩

/-- An empty, healthy manager state. -/
def emptyManagerState : ManagerState :=
  ⟨[], [], false, false⟩

/-- A manager state whose two index locks are both poisoned, with
non-trivial contents behind them. -/
def poisonedManagerState : ManagerState :=
  ⟨[("/b/a.collection.yaml", richCollection)],
   [("Get Users", ("/b/a.collection.yaml", 1))], true, true⟩

/-- A request store whose lock is poisoned, with one entry behind it. -/
def poisonedRequestStore : RequestStoreState :=
  ⟨[("req", mkRequest "req" "https://x.example.com")], true⟩

/-- A healthy manager state: one loaded collection, one live request
entry, one stale positional entry and one entry whose collection is
missing from the collection index. -/
def healthyManagerState : ManagerState :=
  ⟨[("/b/t.collection.yaml", richCollection)],
   [("Get Users", ("/b/t.collection.yaml", 1)),
    ("stale", ("/b/t.collection.yaml", 9)),
    ("ghost", ("/gone.collection.yaml", 0))], false, false⟩

/-! ## Helper lemmas: association maps -/

theorem mapLookup_insert_self {β : Type} (m : List (String × β)) (k : String) (v : β) :
    mapLookup (mapInsert m k v) k = some v := by
  simp [mapLookup, mapInsert]

theorem find?_filter_of_ne {β : Type} (m : List (String × β)) (k k2 : String)
    (h : k ≠ k2) :
    List.find? (fun p => p.1 == k2) (m.filter (fun p => !(p.1 == k))) =
      List.find? (fun p => p.1 == k2) m := by
  induction m with
  | nil => rfl
  | cons p tl ih =>
    by_cases hp : p.1 == k
    · have hp2 : (p.1 == k2) = false := by
        rw [eq_of_beq hp]
        exact beq_eq_false_iff_ne.2 h
      simp [List.filter_cons, hp, hp2, List.find?_cons, ih]
    · by_cases hq : p.1 == k2 <;>
        simp [List.filter_cons, hp, hq, List.find?_cons, ih]

theorem mapLookup_insert_ne {β : Type} (m : List (String × β)) (k k2 : String) (v : β)
    (h : k ≠ k2) : mapLookup (mapInsert m k v) k2 = mapLookup m k2 := by
  have hbeq : (k == k2) = false := beq_eq_false_iff_ne.2 h
  simp only [mapLookup, mapInsert, List.find?_cons, hbeq]
  rw [find?_filter_of_ne m k k2 h]

theorem mapLookup_remove_self {β : Type} (m : List (String × β)) (k : String) :
    mapLookup (mapRemove m k) k = none := by
  simp only [mapLookup, mapRemove]
  have : List.find? (fun p => p.1 == k) (List.filter (fun p => !(p.1 == k)) m) = none := by
    rw [List.find?_eq_none]
    intro x hx
    have := List.of_mem_filter hx
    simp at this
    simp [this]
  simp [this]

/-! ## Helper lemmas: serde round trip at the document level -/

theorem decodeHeaders_encoded (hs : List (String × String)) :
    decodeHeaders (.dict (hs.map (fun p => (p.1, Yaml.str p.2)))) = some hs := by
  simp only [decodeHeaders]
  induction hs with
  | nil => rfl
  | cons p tl ih =>
    simp only [decodeHeaders] at ih
    simp only [List.map_cons, optionMapList]
    rw [ih]
    rfl

theorem decodeMethod_serdeName (m : HttpMethod) :
    decodeMethod m.serdeName = some m := by
  cases m <;> rfl

theorem decodeRequest_encodeRequest (r : Request) :
    decodeRequest (encodeRequest r) = some r := by
  obtain ⟨method, url, headers, body, name⟩ := r
  cases body with
  | none =>
    simp only [decodeRequest, encodeRequest]
    simp only [List.nil_append, List.cons_append, List.append_nil]
    simp [yamlGet, yamlAsStr, decodeMethod_serdeName, decodeHeaders_encoded]
  | some b =>
    simp only [decodeRequest, encodeRequest]
    simp only [List.nil_append, List.cons_append, List.append_nil]
    simp [yamlGet, yamlAsStr, decodeMethod_serdeName, decodeHeaders_encoded]

theorem decodeRequests_encoded (rs : List Request) :
    optionMapList decodeRequest (rs.map encodeRequest) = some rs := by
  induction rs with
  | nil => rfl
  | cons r tl ih =>
    simp [optionMapList, decodeRequest_encodeRequest r, ih]

theorem decodeMetadata_encodeMetadata (m : CollectionMetadata) :
    decodeMetadata (encodeMetadata m) = some m := by
  obtain ⟨version, author, created_at, updated_at⟩ := m
  cases version <;> cases author <;> cases created_at <;> cases updated_at <;>
    simp [decodeMetadata, encodeMetadata, decodeOptStr, yamlGet]

/-! ## Helper lemmas: `Request::validate` -/

theorem validate_eq_ok_iff (r : Request) :
    r.validate = .ok () ↔
      (isBlank r.name = false ∧ isBlank r.url = false ∧
       (strStartsWith r.url "http://" || strStartsWith r.url "https://") = true ∧
       ¬(urlWithoutScheme r.url = "" ∨ urlWithoutScheme r.url = "/")) := by
  cases hn : isBlank r.name <;> cases hu : isBlank r.url <;>
    cases h7 : strStartsWith r.url "http://" <;>
    cases h8 : strStartsWith r.url "https://" <;>
    by_cases hr : (urlWithoutScheme r.url = "" ∨ urlWithoutScheme r.url = "/") <;>
    simp [Request.validate, hn, hu, h7, h8, hr]

/-- The renamed duplicate `"<name> (<idx>)"` is never blank: it ends in a
parenthesis. -/
theorem isBlank_paren_suffix (s t : String) :
    isBlank (s ++ " (" ++ t ++ ")") = false := by
  simp only [isBlank, String.data_append]
  rw [List.all_eq_false]
  refine ⟨')', ?_, by decide⟩
  simp

/-- Renaming a valid request to `"<name> (<idx>)"` keeps it valid. -/
theorem validate_rename (r : Request) (k : Nat) (h : r.validate = .ok ()) :
    Request.validate { r with name := r.name ++ " (" ++ toString k ++ ")" } = .ok () := by
  rw [validate_eq_ok_iff] at h ⊢
  exact ⟨isBlank_paren_suffix r.name (toString k), h.2⟩

theorem decodeCollection_encodeCollection (c : Collection) :
    decodeCollection (encodeCollection c) = some c := by
  obtain ⟨name, requests, description, metadata⟩ := c
  cases description with
  | none =>
    simp [decodeCollection, encodeCollection, yamlGet, yamlAsStr, decodeOptStr,
      decodeRequests_encoded, decodeMetadata_encodeMetadata]
  | some d =>
    simp [decodeCollection, encodeCollection, yamlGet, yamlAsStr, decodeOptStr,
      decodeRequests_encoded, decodeMetadata_encodeMetadata]

/-! ## Helper lemmas: paths -/

theorem pathIsAbsolute_append (a b : String) (h : pathIsAbsolute a = true) :
    pathIsAbsolute (a ++ b) = true := by
  simp only [pathIsAbsolute, strStartsWith, String.data_append] at *
  cases hab : a.data with
  | nil => rw [hab] at h; simp [List.isPrefixOf] at h
  | cons c tl =>
    rw [hab] at h
    simp only [List.cons_append, List.isPrefixOf] at h ⊢
    simpa using h

/-! ## Helper lemmas: file names and stems -/

theorem takeWhile_append_of_all {α : Type} (p : α → Bool) (l1 l2 : List α)
    (h : ∀ x ∈ l1, p x = true) :
    (l1 ++ l2).takeWhile p = l1 ++ l2.takeWhile p := by
  induction l1 with
  | nil => simp
  | cons a tl ih =>
    have ha := h a (by simp)
    rw [List.cons_append, List.takeWhile_cons, if_pos ha,
      ih (fun x hx => h x (by simp [hx]))]
    rfl

theorem pathFileName_append (dir s : String)
    (hs : ∀ ch ∈ s.data, (ch == '/') = false) :
    pathFileName (dir ++ "/" ++ s) = s := by
  unfold pathFileName
  have hd : (dir ++ "/" ++ s).data = (dir.data ++ ['/']) ++ s.data := by
    simp [String.data_append]
  rw [hd, List.reverse_append]
  have h2 : (dir.data ++ ['/']).reverse = '/' :: dir.data.reverse := by simp
  rw [h2]
  rw [takeWhile_append_of_all _ _ _ (fun x hx => by
    have := hs x (List.mem_reverse.1 hx)
    simpa using this)]
  have h3 : List.takeWhile (fun c => !(c == '/')) ('/' :: dir.data.reverse) = [] := by
    simp [List.takeWhile_cons]
  rw [h3, List.append_nil, List.reverse_reverse]

theorem charsBeforeLastDot_collection_yaml (l : List Char) :
    charsBeforeLastDot (l ++ ".collection.yaml".data) = l ++ ".collection".data := by
  unfold charsBeforeLastDot
  have h1 : (l ++ ".collection.yaml".data).reverse =
      "lmay.noitcelloc.".data ++ l.reverse := by
    rw [List.reverse_append]
    congr 1
  have h2 : List.dropWhile (fun c => !(c == '.')) ("lmay.noitcelloc.".data) =
      ".noitcelloc.".data := by decide
  rw [h1, List.dropWhile_append, h2]
  have h3 : (".noitcelloc.".data).isEmpty = false := by decide
  rw [if_neg (by simp [h3])]
  have h4 : ".noitcelloc.".data = '.' :: "noitcelloc.".data := by decide
  rw [h4, List.cons_append]
  simp only [List.drop_one, List.tail_cons]
  rw [List.reverse_append, List.reverse_reverse]
  congr 1

theorem rustFileStem_collection_yaml (stem : String) :
    rustFileStem (stem ++ ".collection.yaml") = some (stem ++ ".collection") := by
  unfold rustFileStem
  have hd : (stem ++ ".collection.yaml").data = stem.data ++ ".collection.yaml".data :=
    String.data_append stem ".collection.yaml"
  rw [hd]
  cases hsd : stem.data with
  | nil =>
    have hstem : stem = "" := String.ext (by rw [hsd])
    subst hstem
    decide
  | cons c tl =>
    have hmem : '.' ∈ tl ++ ".collection.yaml".data :=
      List.mem_append_right tl (by decide)
    have hmemc : '.' ∈ c :: (tl ++ ".collection.yaml".data) :=
      List.mem_cons_of_mem c hmem
    rw [List.cons_append]
    have hstep : rustFileStemChars (c :: (tl ++ ".collection.yaml".data)) =
        some (charsBeforeLastDot (c :: (tl ++ ".collection.yaml".data))) := by
      simp only [rustFileStemChars]
      rw [if_neg (not_not_intro hmemc), if_neg (by rintro ⟨-, hno⟩; exact hno hmem)]
    rw [hstep, ← List.cons_append, charsBeforeLastDot_collection_yaml]
    have hmk : String.mk ((c :: tl) ++ ".collection".data) = stem ++ ".collection" := by
      apply String.ext
      rw [String.data_append, hsd]
    exact congrArg some hmk

/-! ## Helper lemmas: the request-index insertion fold -/

theorem mapLookup_foldl_insert (rs : List (Nat × Request))
    (m0 : List (String × (String × Nat))) (path n : String) :
    mapLookup (rs.foldl (fun m p => mapInsert m p.2.name (path, p.1)) m0) n =
      (match rs.reverse.find? (fun p => p.2.name == n) with
       | some p => some (path, p.1)
       | none => mapLookup m0 n) := by
  induction rs generalizing m0 with
  | nil => simp
  | cons p tl ih =>
    simp only [List.foldl_cons, List.reverse_cons, List.find?_append]
    rw [ih]
    cases htl : tl.reverse.find? (fun q => q.2.name == n) with
    | some q => simp [Option.or]
    | none =>
      by_cases hp : p.2.name == n
      · have hpn : p.2.name = n := eq_of_beq hp
        subst hpn
        simp [mapLookup_insert_self]
      · simp only [Option.none_or, List.find?_cons, hp]
        rw [mapLookup_insert_ne m0 p.2.name n (path, p.1)
          (fun he => by simp [he] at hp)]
        rfl

theorem find?_reverse_of_last {α : Type} (L : List α) (p : α → Bool) (j : Nat)
    (hj : j < L.length) (hpj : p (L.get ⟨j, hj⟩) = true)
    (hafter : ∀ k (hk : k < L.length), j < k → p (L.get ⟨k, hk⟩) = false) :
    L.reverse.find? p = some (L.get ⟨j, hj⟩) := by
  induction L generalizing j with
  | nil => exact absurd hj (by simp)
  | cons a tl ih =>
    cases j with
    | zero =>
      have htl : tl.reverse.find? p = none := by
        rw [List.find?_eq_none]
        intro x hx
        obtain ⟨k, hk⟩ := List.mem_iff_get.1 (List.mem_reverse.1 hx)
        have hlen : (k : Nat) + 1 < (a :: tl).length := by
          simp [Nat.succ_lt_succ k.2]
        have := hafter (k + 1) hlen (Nat.succ_pos k)
        rw [List.get_cons_succ] at this
        simp only [Fin.eta] at this
        rw [hk] at this
        simp [this]
      rw [List.reverse_cons, List.find?_append, htl, Option.none_or,
        List.find?_cons]
      have ha : (a :: tl).get ⟨0, hj⟩ = a := rfl
      rw [ha] at hpj ⊢
      simp [hpj]
    | succ k =>
      have hk : k < tl.length := by simpa using hj
      have hpk : p (tl.get ⟨k, hk⟩) = true := by
        have hstep : (a :: tl).get ⟨k + 1, hj⟩ = tl.get ⟨k, hk⟩ := List.get_cons_succ
        rw [hstep] at hpj
        exact hpj
      have haft : ∀ m (hm : m < tl.length), k < m → p (tl.get ⟨m, hm⟩) = false := by
        intro m hm hkm
        have hlen : m + 1 < (a :: tl).length := by simpa using Nat.succ_lt_succ hm
        have := hafter (m + 1) hlen (Nat.succ_lt_succ hkm)
        rw [List.get_cons_succ] at this
        exact this
      rw [List.reverse_cons, List.find?_append, ih k hk hpk haft, List.get_cons_succ]
      rfl

/-! ## Helper lemmas: the duplicate-name scan -/

theorem validateRequestsGo_of_valid (fix : Bool) (l : List Request)
    (h : ∀ x ∈ l, x.validate = .ok ()) :
    CollectionManager.validateRequestsGo fix l = (l, []) := by
  induction l with
  | nil => rfl
  | cons r tl ih =>
    have hr := h r (by simp)
    have htl := ih (fun x hx => h x (by simp [hx]))
    simp [CollectionManager.validateRequestsGo, hr, htl]

theorem find?_mapEnum_eq_none (A : List Request) (n : Nat) (s : String)
    (h : ∀ x ∈ A, (x.name == s) = false) :
    ((A.enumFrom n).map (fun p => (p.2.name, p.1))).find? (fun p => p.1 == s)
      = none := by
  rw [List.find?_eq_none]
  intro q hq
  obtain ⟨⟨i, x⟩, hmem, heq⟩ := List.mem_map.1 hq
  obtain ⟨hle, hlt, hx⟩ := List.mem_enumFrom hmem
  have hb : i - n < A.length := by omega
  have hxA : x ∈ A := by
    rw [hx]
    exact List.getElem_mem hb
  have hc := h x hxA
  rw [← heq]
  simp [hc]

theorem fixDuplicatesGo_fresh (fix : Bool) (seg rest : List Request) (n : Nat)
    (seen : List (String × Nat))
    (hfresh : ∀ x ∈ seg, seen.find? (fun p => p.1 == x.name) = none)
    (hnodup : (seg.map (fun r => r.name)).Nodup) :
    CollectionManager.fixDuplicatesGo fix (seg ++ rest) n seen =
      ((seg ++ (CollectionManager.fixDuplicatesGo fix rest (n + seg.length)
          (seen ++ (seg.enumFrom n).map (fun p => (p.2.name, p.1)))).1),
       (CollectionManager.fixDuplicatesGo fix rest (n + seg.length)
          (seen ++ (seg.enumFrom n).map (fun p => (p.2.name, p.1)))).2) := by
  induction seg generalizing n seen with
  | nil => simp
  | cons a tl ih =>
    have ha : seen.find? (fun p => p.1 == a.name) = none := hfresh a (by simp)
    have hnodup2 : (tl.map (fun r => r.name)).Nodup := by
      rw [List.map_cons, List.nodup_cons] at hnodup
      exact hnodup.2
    have hnotmem : a.name ∉ tl.map (fun r => r.name) := by
      rw [List.map_cons, List.nodup_cons] at hnodup
      exact hnodup.1
    have hfresh2 : ∀ x ∈ tl,
        (seen ++ [(a.name, n)]).find? (fun p => p.1 == x.name) = none := by
      intro x hx
      rw [List.find?_append, hfresh x (List.mem_cons_of_mem a hx), Option.none_or]
      have hne : (a.name == x.name) = false := by
        refine beq_eq_false_iff_ne.2 (fun he => hnotmem ?_)
        rw [he]
        exact List.mem_map_of_mem _ hx
      simp [List.find?_cons, hne]
    rw [List.cons_append]
    simp only [CollectionManager.fixDuplicatesGo, ha]
    rw [ih (n + 1) (seen ++ [(a.name, n)]) hfresh2 hnodup2]
    simp only [List.length_cons, List.enumFrom_cons, List.map_cons,
      List.append_assoc, List.singleton_append, List.cons_append, List.nil_append]
    have e1 : n + 1 + tl.length = n + (tl.length + 1) := by omega
    rw [e1]

theorem fixDuplicatesGo_fresh_all (fix : Bool) (seg : List Request) (n : Nat)
    (seen : List (String × Nat))
    (hfresh : ∀ x ∈ seg, seen.find? (fun p => p.1 == x.name) = none)
    (hnodup : (seg.map (fun r => r.name)).Nodup) :
    CollectionManager.fixDuplicatesGo fix seg n seen = (seg, []) := by
  have h := fixDuplicatesGo_fresh fix seg [] n seen hfresh hnodup
  rw [List.append_nil] at h
  simpa [CollectionManager.fixDuplicatesGo] using h

theorem fixDuplicates_single_dup (fix : Bool) (A B C : List Request) (r r2 : Request)
    (hdup : r2.name = r.name)
    (hnodup : ((A ++ r :: (B ++ C)).map (fun x => x.name)).Nodup) :
    CollectionManager.fixDuplicatesGo fix (A ++ r :: (B ++ r2 :: C)) 0 [] =
      (A ++ r :: (B ++
          (if fix then { r2 with name := (r2.name ++ " (" ++
              toString (A.length + 1 + B.length) ++ ")") } else r2) :: C),
       ["Duplicate request name '" ++ r2.name ++ "' at indices "
          ++ toString A.length ++ " and " ++ toString (A.length + 1 + B.length)]) := by
  -- unpack the no-other-duplicate hypothesis
  have hmap : ((A ++ r :: (B ++ C)).map (fun x => x.name))
      = A.map (fun x => x.name)
        ++ (r.name :: (B.map (fun x => x.name) ++ C.map (fun x => x.name))) := by
    simp
  rw [hmap] at hnodup
  obtain ⟨hA, hrest, hdisj⟩ := List.nodup_append.1 hnodup
  obtain ⟨hrBC, hBC⟩ := List.nodup_cons.1 hrest
  obtain ⟨hB, hC, hdisjBC⟩ := List.nodup_append.1 hBC
  -- name-distinctness facts
  have hA_ne : ∀ s, s ∈ r.name :: (B.map (fun x => x.name) ++ C.map (fun x => x.name)) →
      ∀ x ∈ A, (x.name == s) = false := by
    intro s hs x hx
    exact beq_eq_false_iff_ne.2 (fun he => hdisj (List.mem_map_of_mem _ hx) (he ▸ hs))
  have hB_ne_r : ∀ x ∈ B, (r.name == x.name) = false := by
    intro x hx
    refine beq_eq_false_iff_ne.2 (fun he => hrBC ?_)
    rw [he]
    exact List.mem_append_left _ (List.mem_map_of_mem _ hx)
  have hC_ne_r : ∀ x ∈ C, (r.name == x.name) = false := by
    intro x hx
    refine beq_eq_false_iff_ne.2 (fun he => hrBC ?_)
    rw [he]
    exact List.mem_append_right _ (List.mem_map_of_mem _ hx)
  -- the A segment is fresh
  rw [fixDuplicatesGo_fresh fix A (r :: (B ++ r2 :: C)) 0 [] (fun x hx => rfl) hA]
  simp only [List.nil_append, Nat.zero_add]
  -- one scan step at the first occurrence r
  have hfA : ((A.enumFrom 0).map (fun p => (p.2.name, p.1))).find?
      (fun p => p.1 == r.name) = none :=
    find?_mapEnum_eq_none A 0 r.name (hA_ne r.name (List.mem_cons_self _ _))
  simp only [CollectionManager.fixDuplicatesGo, hfA]
  -- the B segment is fresh
  have hfreshB : ∀ x ∈ B,
      ((A.enumFrom 0).map (fun p => (p.2.name, p.1)) ++ [(r.name, A.length)]).find?
        (fun p => p.1 == x.name) = none := by
    intro x hx
    rw [List.find?_append, find?_mapEnum_eq_none A 0 x.name
      (hA_ne x.name (List.mem_cons_of_mem _
        (List.mem_append_left _ (List.mem_map_of_mem _ hx)))), Option.none_or]
    simp [List.find?_cons, hB_ne_r x hx]
  rw [fixDuplicatesGo_fresh fix B (r2 :: C) (A.length + 1) _ hfreshB hB]
  -- the scan step at the duplicate r2: the first-seen map yields index |A|
  have hfind_r2 : (((A.enumFrom 0).map (fun p => (p.2.name, p.1)) ++ [(r.name, A.length)])
        ++ (B.enumFrom (A.length + 1)).map (fun p => (p.2.name, p.1))).find?
        (fun p => p.1 == r2.name) = some (r.name, A.length) := by
    rw [List.find?_append, List.find?_append, find?_mapEnum_eq_none A 0 r2.name
      (fun x hx => by rw [hdup]; exact hA_ne r.name (List.mem_cons_self _ _) x hx),
      Option.none_or]
    have hr : (r.name == r2.name) = true := beq_iff_eq.2 hdup.symm
    simp [List.find?_cons, hr]
  simp only [CollectionManager.fixDuplicatesGo, hfind_r2]
  -- the C segment is fresh
  have hfreshC : ∀ x ∈ C,
      (((A.enumFrom 0).map (fun p => (p.2.name, p.1)) ++ [(r.name, A.length)])
        ++ (B.enumFrom (A.length + 1)).map (fun p => (p.2.name, p.1))).find?
        (fun p => p.1 == x.name) = none := by
    intro x hx
    rw [List.find?_append, List.find?_append, find?_mapEnum_eq_none A 0 x.name
      (hA_ne x.name (List.mem_cons_of_mem _
        (List.mem_append_right _ (List.mem_map_of_mem _ hx)))), Option.none_or]
    have h1 : List.find? (fun p => p.1 == x.name) [(r.name, A.length)] = none := by
      simp [List.find?_cons, hC_ne_r x hx]
    rw [h1, Option.none_or]
    refine find?_mapEnum_eq_none B (A.length + 1) x.name ?_
    intro y hy
    exact beq_eq_false_iff_ne.2 (fun he =>
      hdisjBC (List.mem_map_of_mem _ hy) (he ▸ List.mem_map_of_mem _ hx))
  rw [fixDuplicatesGo_fresh_all fix C (A.length + 1 + B.length + 1) _ hfreshC hC]

/-! ## Claim theorems -/

/-- C5: `Request::validate` does not enforce the §3 invariant as claimed.
Counterexample: `"https:///some/path"` has an empty authority component,
yet the request validates successfully (the code only rejects a
post-scheme remainder that is exactly `""` or `"/"`). -/
theorem C5_counterexample :
    Request.validate (mkRequest "Test" "https:///some/path") = .ok () ∧
    urlAuthority "https:///some/path" = "" := by
  constructor <;> rfl

/-- C5 (amended): `r.validate()` succeeds iff `r.name` is non-blank,
`r.url` is non-blank and begins with `http://` or `https://`, and the
remainder of the URL after the scheme is neither empty nor exactly `"/"`.
URLs with an empty authority but a non-trivial path (e.g.
`"https:///some/path"`) are accepted. -/
theorem C5_validate_characterization (r : Request) :
    r.validate = .ok () ↔
      (isBlank r.name = false ∧ isBlank r.url = false ∧
       (strStartsWith r.url "http://" || strStartsWith r.url "https://") = true ∧
       ¬(urlWithoutScheme r.url = "" ∨ urlWithoutScheme r.url = "/")) :=
  validate_eq_ok_iff r

/-- C6: round-trip — saving a collection and loading the returned path
yields the collection back (stated for an absolute base directory, as the
application always uses; equality holds for the whole collection, hence
in particular for `name`, `requests` and `description`). -/
theorem C6_round_trip (fs : FileSystem) (base f : String) (c : Collection)
    (hbase : pathIsAbsolute base = true) :
    YAMLStore.loadCollection (YAMLStore.saveCollection fs base c f).1 base
      (YAMLStore.saveCollection fs base c f).2 = .ok c := by
  simp only [YAMLStore.saveCollection, YAMLStore.loadCollection, YAMLStore.resolvePath]
  have habs : pathIsAbsolute (base ++ "/" ++ f ++ ".collection.yaml") = true :=
    pathIsAbsolute_append _ _ (pathIsAbsolute_append _ _ (pathIsAbsolute_append _ _ hbase))
  rw [if_pos habs, mapLookup_insert_self]
  simp [decodeCollection_encodeCollection]

/-- C6 witness at a concrete collection exercising every field. -/
theorem C6_round_trip_witness :
    pathIsAbsolute "/data" = true ∧
    YAMLStore.loadCollection (YAMLStore.saveCollection [] "/data" richCollection "api").1
      "/data" (YAMLStore.saveCollection [] "/data" richCollection "api").2 =
        .ok richCollection :=
  ⟨rfl, C6_round_trip [] "/data" "api" richCollection rfl⟩

/-- C2: `migrate_collection` does not backfill `updated_at` when only it
is absent.  Counterexample: a stored collection with `created_at` present
and `updated_at` absent comes back from migration with `updated_at` still
absent (the code only tests `created_at.is_none()`). -/
theorem C2_counterexample :
    Except.map (fun x => (x.2.metadata.created_at, x.2.metadata.updated_at))
      (CollectionManager.migrateCollection
        [("/b/legacy.collection.yaml", encodeCollection partialTimestampCollection)]
        "/b" "/b/legacy.collection.yaml" "2031-01-01T00:00:00+00:00")
      = .ok (some "2020-01-01T00:00:00+00:00", none) := by
  rfl

/-- C2 (amended): `migrate_collection(path)` backfills `metadata.version`
to `"1.0.0"` when absent; when `created_at` is absent it sets both
`created_at` and `updated_at` to the same current time; when `created_at`
is present it leaves both timestamps unchanged — in particular an absent
`updated_at` is then not filled in. -/
theorem C2_migrate_backfill (fs : FileSystem) (base p now : String) (c : Collection)
    (h : YAMLStore.loadCollection fs base p = .ok c) :
    (∃ fs2, CollectionManager.migrateCollection fs base p now =
        .ok (fs2, CollectionManager.migrateFix c now)) ∧
    ((CollectionManager.migrateFix c now).metadata.version
        = if c.metadata.version = none then some "1.0.0" else c.metadata.version) ∧
    (c.metadata.created_at = none →
      (CollectionManager.migrateFix c now).metadata.created_at = some now ∧
      (CollectionManager.migrateFix c now).metadata.updated_at = some now) ∧
    (∀ t, c.metadata.created_at = some t →
      (CollectionManager.migrateFix c now).metadata.created_at = some t ∧
      (CollectionManager.migrateFix c now).metadata.updated_at = c.metadata.updated_at) := by
  have hm : CollectionManager.migrateCollection fs base p now =
      .ok ((YAMLStore.saveCollection fs base (CollectionManager.migrateFix c now)
              ((rustFileStem (pathFileName p)).getD "migrated")).1,
           CollectionManager.migrateFix c now) := by
    simp only [CollectionManager.migrateCollection, h]
  refine ⟨⟨_, hm⟩, ?_, ?_, ?_⟩
  all_goals
    cases hv : c.metadata.version <;> cases hc : c.metadata.created_at <;>
      simp [CollectionManager.migrateFix, hv, hc]

/-- C2 witness: migrating a collection with no metadata at all backfills
version and both timestamps. -/
theorem C2_migrate_backfill_witness :
    (∃ fs2, CollectionManager.migrateCollection
        [("/b/legacy.collection.yaml", encodeCollection unmigratedCollection)]
        "/b" "/b/legacy.collection.yaml" "NOW" =
        .ok (fs2, CollectionManager.migrateFix unmigratedCollection "NOW")) ∧
    ((CollectionManager.migrateFix unmigratedCollection "NOW").metadata.version
        = if unmigratedCollection.metadata.version = none then some "1.0.0"
          else unmigratedCollection.metadata.version) ∧
    (unmigratedCollection.metadata.created_at = none →
      (CollectionManager.migrateFix unmigratedCollection "NOW").metadata.created_at = some "NOW" ∧
      (CollectionManager.migrateFix unmigratedCollection "NOW").metadata.updated_at = some "NOW") ∧
    (∀ t, unmigratedCollection.metadata.created_at = some t →
      (CollectionManager.migrateFix unmigratedCollection "NOW").metadata.created_at = some t ∧
      (CollectionManager.migrateFix unmigratedCollection "NOW").metadata.updated_at
        = unmigratedCollection.metadata.updated_at) :=
  C2_migrate_backfill _ "/b" "/b/legacy.collection.yaml" "NOW" unmigratedCollection rfl

/-- C4: lock poisoning is not surfaced as a distinct error.
Counterexample: with a poisoned collection lock, `get_all_collections`
returns the empty vector and `collection_count` returns `0` although the
index holds a collection — indistinguishable from an empty store;
`find_request_by_name` returns `None`; and `RequestStore::len` panics
(modelled `none`) instead of returning an error. -/
theorem C4_counterexample :
    CollectionManager.getAllCollections poisonedManagerState = [] ∧
    CollectionManager.collectionCount poisonedManagerState = 0 ∧
    CollectionManager.findRequestByName poisonedManagerState "Get Users" = none ∧
    RequestStore.len poisonedRequestStore = none :=
  ⟨rfl, rfl, rfl, rfl⟩

/-- C4 (amended): on a poisoned lock the Collection Manager silently
degrades — `get_all_collections`/`collection_count` return the defaults
`[]`/`0`, `find_request_by_name` returns `None`, and
`add_to_index`/`clear_index`/`delete_collection` skip their index updates
— while every Named Request Store operation panics via `.unwrap()`
(modelled `none`), except that `add`'s blank-name check precedes the lock
acquisition. -/
theorem C4_poisoned_swallowed (s : ManagerState) (rs : RequestStoreState)
    (fs : FileSystem) (base p n : String) (c : Collection) (r : Request)
    (hc : s.collectionPoisoned = true) (hr : s.requestPoisoned = true)
    (hp : rs.poisoned = true) :
    CollectionManager.getAllCollections s = [] ∧
    CollectionManager.collectionCount s = 0 ∧
    CollectionManager.findRequestByName s n = none ∧
    CollectionManager.addToIndex s p c = s ∧
    CollectionManager.clearIndex s = s ∧
    (CollectionManager.deleteCollection s fs base p).1 = s ∧
    RequestStore.len rs = none ∧
    (RequestStore.addRequest rs n r =
      if isBlank n then some (rs, .error "Request name cannot be empty") else none) ∧
    RequestStore.getRequest rs n = none := by
  refine ⟨?_, ?_, ?_, ?_, ?_, ?_, ?_, ?_, ?_⟩ <;>
    simp [CollectionManager.getAllCollections, CollectionManager.collectionCount,
      CollectionManager.findRequestByName, CollectionManager.addToIndex,
      CollectionManager.clearIndex, CollectionManager.deleteCollection,
      RequestStore.len, RequestStore.addRequest, RequestStore.getRequest,
      hc, hr, hp]

/-- C4 witness at the concrete poisoned fixtures. -/
theorem C4_poisoned_swallowed_witness :
    CollectionManager.getAllCollections poisonedManagerState = [] ∧
    CollectionManager.collectionCount poisonedManagerState = 0 ∧
    RequestStore.len poisonedRequestStore = none := by
  have h := C4_poisoned_swallowed poisonedManagerState poisonedRequestStore
    [] "/b" "p" "n" richCollection (mkRequest "n" "https://x.example.com") rfl rfl rfl
  exact ⟨h.1, h.2.1, h.2.2.2.2.2.2.1⟩

/-- C7: `delete_collection` removes the `collection_index` entry for the
path whether or not the file deletion succeeds, and a failed file
deletion (`FileNotFound`) is still returned to the caller. -/
theorem C7_delete_collection (s : ManagerState) (fs : FileSystem) (base p : String)
    (h : s.collectionPoisoned = false) :
    mapLookup (CollectionManager.deleteCollection s fs base p).1.collectionIndex p = none ∧
    (mapLookup fs (YAMLStore.resolvePath base p) = none →
      (CollectionManager.deleteCollection s fs base p).2.2 =
        .error (.fileNotFound (YAMLStore.resolvePath base p))) ∧
    (∀ y, mapLookup fs (YAMLStore.resolvePath base p) = some y →
      (CollectionManager.deleteCollection s fs base p).2.2 = .ok ()) := by
  refine ⟨?_, ?_, ?_⟩
  · simp only [CollectionManager.deleteCollection, h, Bool.false_eq_true, if_false]
    exact mapLookup_remove_self s.collectionIndex p
  · intro hmiss
    simp [CollectionManager.deleteCollection, YAMLStore.deleteFile, hmiss]
  · intro y hhit
    simp [CollectionManager.deleteCollection, YAMLStore.deleteFile, hhit]

/-- C7 witness: deleting a never-saved path still clears the index slot
and surfaces `FileNotFound`. -/
theorem C7_delete_collection_witness :
    mapLookup (CollectionManager.deleteCollection healthyManagerState []
      "/b" "/b/t.collection.yaml").1.collectionIndex "/b/t.collection.yaml" = none ∧
    (CollectionManager.deleteCollection healthyManagerState [] "/b"
      "/b/t.collection.yaml").2.2 = .error (.fileNotFound "/b/t.collection.yaml") := by
  have h := C7_delete_collection healthyManagerState [] "/b" "/b/t.collection.yaml" rfl
  exact ⟨h.1, h.2.1 rfl⟩

/-- C8: `find_request_by_name` never fails unsafely — it returns `None`
when the request-index entry is missing, when the recorded collection
path misses the collection index, or when the recorded position is out of
range; otherwise it returns the request at that position. -/
theorem C8_find_request_total (s : ManagerState) (n : String)
    (hc : s.collectionPoisoned = false) (hr : s.requestPoisoned = false) :
    (mapLookup s.requestIndex n = none →
      CollectionManager.findRequestByName s n = none) ∧
    (∀ p i, mapLookup s.requestIndex n = some (p, i) →
      (mapLookup s.collectionIndex p = none →
        CollectionManager.findRequestByName s n = none) ∧
      (∀ c, mapLookup s.collectionIndex p = some c →
        (c.requests.length ≤ i →
          CollectionManager.findRequestByName s n = none) ∧
        (∀ hi : i < c.requests.length,
          CollectionManager.findRequestByName s n =
            some (c.requests.get ⟨i, hi⟩)))) := by
  refine ⟨?_, ?_⟩
  · intro hmiss
    simp [CollectionManager.findRequestByName, hc, hr, hmiss]
  · intro p i hhit
    refine ⟨?_, ?_⟩
    · intro hmiss
      simp [CollectionManager.findRequestByName, hc, hr, hhit, hmiss]
    · intro c hcoll
      refine ⟨?_, ?_⟩
      · intro hlen
        have hnone : c.requests.get? i = none := List.get?_eq_none.2 hlen
        simp [CollectionManager.findRequestByName, hc, hr, hhit, hcoll, hnone]
        exact hlen
      · intro hi
        simp [CollectionManager.findRequestByName, hc, hr, hhit, hcoll,
          List.get?_eq_get hi]

/-- C8 witness: live, stale and dangling entries of the concrete healthy
state resolve to the request, `None` and `None` respectively. -/
theorem C8_find_request_total_witness :
    CollectionManager.findRequestByName healthyManagerState "Get Users" =
      some (mkRequest "Get Users" "https://api.example.com/users") ∧
    CollectionManager.findRequestByName healthyManagerState "stale" = none ∧
    CollectionManager.findRequestByName healthyManagerState "ghost" = none ∧
    CollectionManager.findRequestByName healthyManagerState "absent" = none := by
  refine ⟨?_, ?_, ?_, ?_⟩
  · have h := C8_find_request_total healthyManagerState "Get Users" rfl rfl
    have h2 := ((h.2 "/b/t.collection.yaml" 1 rfl).2 richCollection rfl).2 (by decide)
    simpa using h2
  · have h := C8_find_request_total healthyManagerState "stale" rfl rfl
    exact ((h.2 "/b/t.collection.yaml" 9 rfl).2 richCollection rfl).1 (by decide)
  · have h := C8_find_request_total healthyManagerState "ghost" rfl rfl
    exact (h.2 "/gone.collection.yaml" 0 rfl).1 rfl
  · have h := C8_find_request_total healthyManagerState "absent" rfl rfl
    exact h.1 rfl

/-- C9: `RequestStore::add_request` rejects a blank name, rejects an
existing name, and otherwise inserts; the store is unchanged on both
failure paths. -/
theorem C9_add_request (s : RequestStoreState) (n : String) (r : Request)
    (h : s.poisoned = false) :
    (isBlank n = true →
      RequestStore.addRequest s n r = some (s, .error "Request name cannot be empty")) ∧
    (∀ r0, isBlank n = false → mapLookup s.store n = some r0 →
      RequestStore.addRequest s n r =
        some (s, .error ("Request with name '" ++ n ++ "' already exists"))) ∧
    (isBlank n = false → mapLookup s.store n = none →
      RequestStore.addRequest s n r =
        some ({ s with store := mapInsert s.store n r }, .ok ()) ∧
      mapLookup (mapInsert s.store n r) n = some r) := by
  refine ⟨?_, ?_, ?_⟩
  · intro hb
    simp [RequestStore.addRequest, hb]
  · intro r0 hb hhit
    simp [RequestStore.addRequest, h, hb, hhit]
  · intro hb hmiss
    exact ⟨by simp [RequestStore.addRequest, h, hb, hmiss],
      mapLookup_insert_self s.store n r⟩

/-- C9 witness: the three branches at concrete stores. -/
theorem C9_add_request_witness :
    RequestStore.addRequest ⟨[], false⟩ "  " (mkRequest "  " "https://x.example.com") =
      some (⟨[], false⟩, .error "Request name cannot be empty") ∧
    RequestStore.addRequest ⟨[("req", mkRequest "req" "https://x.example.com")], false⟩
        "req" (mkRequest "req" "https://y.example.com") =
      some (⟨[("req", mkRequest "req" "https://x.example.com")], false⟩,
        .error "Request with name 'req' already exists") ∧
    RequestStore.addRequest ⟨[], false⟩ "req" (mkRequest "req" "https://x.example.com") =
      some (⟨mapInsert [] "req" (mkRequest "req" "https://x.example.com"), false⟩, .ok ()) := by
  refine ⟨?_, ?_, ?_⟩
  · exact (C9_add_request ⟨[], false⟩ "  " (mkRequest "  " "https://x.example.com") rfl).1 rfl
  · exact ((C9_add_request ⟨[("req", mkRequest "req" "https://x.example.com")], false⟩
      "req" (mkRequest "req" "https://y.example.com") rfl).2.1
        (mkRequest "req" "https://x.example.com") rfl rfl)
  · exact ((C9_add_request ⟨[], false⟩ "req" (mkRequest "req" "https://x.example.com")
      rfl).2.2 rfl rfl).1

/-- C10: indexing a collection that holds several requests with the same
name leaves the `request_index` entry for that name at the position of
the last occurrence (later insertions of the `add_to_index` loop
overwrite earlier ones), so `find_request_by_name` returns the last
same-named request. -/
theorem C10_last_duplicate_wins (s : ManagerState) (path : String) (c : Collection)
    (n : String) (i j : Nat)
    (hc : s.collectionPoisoned = false) (hr : s.requestPoisoned = false)
    (hij : i < j) (hj : j < c.requests.length)
    (_hni : (c.requests.get ⟨i, lt_trans hij hj⟩).name = n)
    (hnj : (c.requests.get ⟨j, hj⟩).name = n)
    (hlast : ∀ k (hk : k < c.requests.length), j < k →
      (c.requests.get ⟨k, hk⟩).name ≠ n) :
    mapLookup (CollectionManager.addToIndex s path c).requestIndex n = some (path, j) ∧
    CollectionManager.findRequestByName (CollectionManager.addToIndex s path c) n =
      some (c.requests.get ⟨j, hj⟩) := by
  have hjE : j < c.requests.enum.length := by simpa [List.enum_length] using hj
  have hgetE : c.requests.enum.get ⟨j, hjE⟩ = (j, c.requests.get ⟨j, hj⟩) := by
    simp [List.get_eq_getElem, List.getElem_enum]
  have hfind : c.requests.enum.reverse.find? (fun p => p.2.name == n) =
      some (j, c.requests.get ⟨j, hj⟩) := by
    rw [find?_reverse_of_last c.requests.enum (fun p => p.2.name == n) j hjE
      (by rw [hgetE]; simpa using hnj) ?_, hgetE]
    intro k hk hjk
    have hkR : k < c.requests.length := by simpa [List.enum_length] using hk
    have : c.requests.enum.get ⟨k, hk⟩ = (k, c.requests.get ⟨k, hkR⟩) := by
      simp [List.get_eq_getElem, List.getElem_enum]
    rw [this]
    simpa using hlast k hkR hjk
  have hstate : (CollectionManager.addToIndex s path c).requestIndex =
      (c.requests.enum).foldl (fun m p => mapInsert m p.2.name (path, p.1))
        s.requestIndex := by
    simp [CollectionManager.addToIndex, hc, hr]
  have hlook : mapLookup (CollectionManager.addToIndex s path c).requestIndex n =
      some (path, j) := by
    rw [hstate, mapLookup_foldl_insert, hfind]
  refine ⟨hlook, ?_⟩
  have hcoll : mapLookup (CollectionManager.addToIndex s path c).collectionIndex path =
      some c := by
    simp [CollectionManager.addToIndex, hc, hr, mapLookup_insert_self]
  have hcp : (CollectionManager.addToIndex s path c).collectionPoisoned = false := by
    simp [CollectionManager.addToIndex, hc, hr]
  have hrp : (CollectionManager.addToIndex s path c).requestPoisoned = false := by
    simp [CollectionManager.addToIndex, hc, hr]
  simp [CollectionManager.findRequestByName, hcp, hrp, hlook, hcoll,
    List.get?_eq_get hj]

/-- C10 witness: the two-request duplicate collection indexes to position
1 and `find_request_by_name` returns the second request. -/
theorem C10_last_duplicate_wins_witness :
    mapLookup (CollectionManager.addToIndex emptyManagerState "/b/d.collection.yaml"
        duplicateNameCollection).requestIndex "Common Request" =
      some ("/b/d.collection.yaml", 1) ∧
    CollectionManager.findRequestByName
        (CollectionManager.addToIndex emptyManagerState "/b/d.collection.yaml"
          duplicateNameCollection) "Common Request" =
      some (duplicateNameCollection.requests.get ⟨1, by decide⟩) := by
  have h := C10_last_duplicate_wins emptyManagerState "/b/d.collection.yaml"
    duplicateNameCollection "Common Request" 0 1 rfl rfl (by decide) (by decide)
    rfl rfl (fun k hk hjk => absurd hk (by simp [duplicateNameCollection]; omega))
  exact h

/-- C3: `migrate_collection` does not re-save to the file it loaded.
Counterexample: migrating `/b/legacy.collection.yaml` leaves the original
file with the old (still unmigrated) document and creates
`/b/legacy.collection.collection.yaml` instead — because Rust
`file_stem` of `legacy.collection.yaml` is `legacy.collection`, to which
`save_collection` appends `.collection.yaml` again. -/
theorem C3_counterexample :
    Except.map
      (fun x => ((mapLookup x.1 "/b/legacy.collection.yaml").bind decodeCollection,
                 (mapLookup x.1 "/b/legacy.collection.collection.yaml").isSome))
      (CollectionManager.migrateCollection
        [("/b/legacy.collection.yaml", encodeCollection unmigratedCollection)]
        "/b" "/b/legacy.collection.yaml" "NOW")
      = .ok (some unmigratedCollection, true) ∧
    CollectionManager.migrateFix unmigratedCollection "NOW" ≠ unmigratedCollection := by
  constructor
  · rfl
  · intro h
    have := congrArg (fun c => c.metadata.version) h
    simp [CollectionManager.migrateFix, unmigratedCollection] at this

/-- C3 (amended): for a path `<dir>/<stem>.collection.yaml` (no `/` in
`stem`), `migrate_collection` re-saves under the filename
`<stem>.collection` — Rust `file_stem` strips only the final `.yaml` —
so the write goes to `<base>/<stem>.collection.collection.yaml`, a
different file; the loaded path itself is not rewritten. -/
theorem C3_migrate_resave_target (fs : FileSystem) (base dir stem now : String)
    (c : Collection)
    (hs : ∀ ch ∈ stem.data, (ch == '/') = false)
    (h : YAMLStore.loadCollection fs base (dir ++ "/" ++ stem ++ ".collection.yaml")
          = .ok c) :
    CollectionManager.migrateCollection fs base
        (dir ++ "/" ++ stem ++ ".collection.yaml") now =
      .ok (mapInsert fs (base ++ "/" ++ (stem ++ ".collection") ++ ".collection.yaml")
            (encodeCollection (CollectionManager.migrateFix c now)),
          CollectionManager.migrateFix c now) := by
  have hassoc : dir ++ "/" ++ stem ++ ".collection.yaml"
      = dir ++ "/" ++ (stem ++ ".collection.yaml") := by
    rw [String.append_assoc]
  have hsall : ∀ ch ∈ (stem ++ ".collection.yaml").data, (ch == '/') = false := by
    intro ch hch
    rw [String.data_append] at hch
    rcases List.mem_append.1 hch with hl | hr
    · exact hs ch hl
    · exact (by decide : ∀ x ∈ ".collection.yaml".data, (x == '/') = false) ch hr
  have hfile : pathFileName (dir ++ "/" ++ stem ++ ".collection.yaml")
      = stem ++ ".collection.yaml" := by
    rw [hassoc]
    exact pathFileName_append dir (stem ++ ".collection.yaml") hsall
  simp only [CollectionManager.migrateCollection, h, hfile,
    rustFileStem_collection_yaml, Option.getD_some, YAMLStore.saveCollection]

/-- C3 witness at `/b/legacy.collection.yaml`. -/
theorem C3_migrate_resave_target_witness :
    CollectionManager.migrateCollection
        [("/b/legacy.collection.yaml", encodeCollection unmigratedCollection)]
        "/b" ("/b" ++ "/" ++ "legacy" ++ ".collection.yaml") "NOW" =
      .ok (mapInsert
            [("/b/legacy.collection.yaml", encodeCollection unmigratedCollection)]
            ("/b" ++ "/" ++ ("legacy" ++ ".collection") ++ ".collection.yaml")
            (encodeCollection (CollectionManager.migrateFix unmigratedCollection "NOW")),
          CollectionManager.migrateFix unmigratedCollection "NOW") :=
  C3_migrate_resave_target
    [("/b/legacy.collection.yaml", encodeCollection unmigratedCollection)]
    "/b" "/b" "legacy" "NOW" unmigratedCollection (by decide) rfl

/-- C1: the issue list is not always a singleton.  Counterexample: a
collection with exactly one repeated name at indices 0 and 1 but a
missing `metadata.version` yields two issue strings (the metadata check
runs first and reports too). -/
theorem C1_counterexample :
    missingVersionDupCollection.requests.map (fun x => x.name)
        = ["Get User", "Get User"] ∧
    (CollectionManager.validateAndFixCollection missingVersionDupCollection true).2 =
      ["Missing version metadata",
       "Duplicate request name 'Get User' at indices 0 and 1"] ∧
    (CollectionManager.validateAndFixCollection missingVersionDupCollection true).2.length
      ≠ 1 := by
  refine ⟨rfl, rfl, by decide⟩

/-- C1 (amended): for a collection whose requests hold exactly one
repeated name, at positions `i < j` (witnessed by the decomposition
`A ++ r :: (B ++ r2 :: C)` with `i = |A|`, `j = |A| + 1 + |B|`), and
which additionally has `metadata.version` present and only valid
requests, `validate_and_fix_collection(c, true)` leaves `requests[i]`
unchanged, renames `requests[j]` to `"<name> (<j>)"` — the suffix being
the absolute position `j` — and reports exactly the one issue string
`"Duplicate request name '<name>' at indices <i> and <j>"`.  Without the
version/validity provisos, extra issue strings are reported (see the
counterexample). -/
theorem C1_duplicate_fix (cname : String) (A B C : List Request) (r r2 : Request)
    (desc : Option String) (v : String) (au cr up : Option String)
    (hdup : r2.name = r.name)
    (hnodup : ((A ++ r :: (B ++ C)).map (fun x => x.name)).Nodup)
    (hvalid : ∀ x ∈ A ++ r :: (B ++ r2 :: C), x.validate = .ok ()) :
    CollectionManager.validateAndFixCollection
        ⟨cname, A ++ r :: (B ++ r2 :: C), desc, ⟨some v, au, cr, up⟩⟩ true =
      (⟨cname, A ++ r :: (B ++
          { r2 with name := (r2.name ++ " (" ++
              toString (A.length + 1 + B.length) ++ ")") } :: C), desc,
        ⟨some v, au, cr, up⟩⟩,
       ["Duplicate request name '" ++ r2.name ++ "' at indices "
          ++ toString A.length ++ " and " ++ toString (A.length + 1 + B.length)]) := by
  have hscan := fixDuplicates_single_dup true A B C r r2 hdup hnodup
  rw [if_pos rfl] at hscan
  have hvalid2 : ∀ x ∈ A ++ r :: (B ++
      { r2 with name := (r2.name ++ " (" ++
          toString (A.length + 1 + B.length) ++ ")") } :: C),
      x.validate = .ok () := by
    intro x hx
    rcases List.mem_append.1 hx with hxA | hxR
    · exact hvalid x (List.mem_append_left _ hxA)
    · rcases List.mem_cons.1 hxR with rfl | hxBC
      · exact hvalid x (List.mem_append_right _ (List.mem_cons_self _ _))
      · rcases List.mem_append.1 hxBC with hxB | hxRC
        · exact hvalid x (List.mem_append_right _ (List.mem_cons_of_mem _
            (List.mem_append_left _ hxB)))
        · rcases List.mem_cons.1 hxRC with rfl | hxC
          · exact validate_rename r2 (A.length + 1 + B.length)
              (hvalid r2 (List.mem_append_right _ (List.mem_cons_of_mem _
                (List.mem_append_right _ (List.mem_cons_self _ _)))))
          · exact hvalid x (List.mem_append_right _ (List.mem_cons_of_mem _
              (List.mem_append_right _ (List.mem_cons_of_mem _ hxC))))
  have hmeta : CollectionManager.validateMetadata
      ⟨cname, A ++ r :: (B ++ r2 :: C), desc, ⟨some v, au, cr, up⟩⟩ [] true
      = (⟨cname, A ++ r :: (B ++ r2 :: C), desc, ⟨some v, au, cr, up⟩⟩, []) := by
    simp [CollectionManager.validateMetadata]
  have hdupstep : CollectionManager.validateDuplicateNames
      ⟨cname, A ++ r :: (B ++ r2 :: C), desc, ⟨some v, au, cr, up⟩⟩ [] true
      = (⟨cname, A ++ r :: (B ++
            { r2 with name := (r2.name ++ " (" ++
                toString (A.length + 1 + B.length) ++ ")") } :: C), desc,
          ⟨some v, au, cr, up⟩⟩,
         ["Duplicate request name '" ++ r2.name ++ "' at indices "
            ++ toString A.length ++ " and " ++ toString (A.length + 1 + B.length)]) := by
    simp only [CollectionManager.validateDuplicateNames, hscan]
    simp
  have hreqstep : CollectionManager.validateRequests
      ⟨cname, A ++ r :: (B ++
          { r2 with name := (r2.name ++ " (" ++
              toString (A.length + 1 + B.length) ++ ")") } :: C), desc,
        ⟨some v, au, cr, up⟩⟩
      ["Duplicate request name '" ++ r2.name ++ "' at indices "
          ++ toString A.length ++ " and " ++ toString (A.length + 1 + B.length)] true
      = (⟨cname, A ++ r :: (B ++
            { r2 with name := (r2.name ++ " (" ++
                toString (A.length + 1 + B.length) ++ ")") } :: C), desc,
          ⟨some v, au, cr, up⟩⟩,
         ["Duplicate request name '" ++ r2.name ++ "' at indices "
            ++ toString A.length ++ " and " ++ toString (A.length + 1 + B.length)]) := by
    simp only [CollectionManager.validateRequests,
      validateRequestsGo_of_valid true _ hvalid2]
    simp
  simp only [CollectionManager.validateAndFixCollection, hmeta, hdupstep, hreqstep]

/-- C1 witness: Scenario A — two requests named `"Get User"`, version
present; the second becomes `"Get User (1)"` with exactly one issue. -/
theorem C1_duplicate_fix_witness :
    CollectionManager.validateAndFixCollection scenarioACollection true =
      (⟨"Test", [mkRequest "Get User" "https://a.example.com",
                 { mkRequest "Get User" "https://b.example.com" with
                     name := "Get User (1)" }], none,
        ⟨some "1.0.0", none, none, none⟩⟩,
       ["Duplicate request name 'Get User' at indices 0 and 1"]) := by
  have h := C1_duplicate_fix "Test" [] [] []
    (mkRequest "Get User" "https://a.example.com")
    (mkRequest "Get User" "https://b.example.com")
    none "1.0.0" none none none rfl (by simp)
    (by
      intro x hx
      simp only [List.nil_append, List.mem_cons, List.not_mem_nil, or_false] at hx
      rcases hx with rfl | rfl <;> rfl)
  exact h
